import Mathlib

/-!
Verification of the row-classification and aggregation pipeline of the
analisipolitiche repository.

The embedding follows `src/src/data_loader.py` (`DataLoader.load`) and
`src/src/analysis.py` (`AnalisiPolitiche`).  Spreadsheet cells are modelled
as `Option String` (`none` is pandas `NaN`); the tariff mapping is an
ordered association list from action-code string to a rational rate; dates
are day/month/year triples and periods are (year, month) pairs.
-/

set_option maxRecDepth 4000

/-- One raw spreadsheet row.  Each cell is `Option String`: `none` models a
pandas `NaN` cell (empty cell of the uploaded file). -/
structure RawRow where
  destinatario : Option String
  operatore : Option String
  attivita : Option String
  evento : Option String
  dataFine : Option String
  dataProposta : Option String
deriving Repr, DecidableEq

/-- A calendar date, as produced by parsing a `DD/MM/YYYY` cell. -/
structure Date where
  day : Nat
  month : Nat
  year : Nat
deriving Repr, DecidableEq

/-- ASCII uppercase letter test, the `[A-Z]` character class. -/
def isUpperAZ (c : Char) : Bool := 'A' ≤ c && c ≤ 'Z'

/-- ASCII digit test, the `\d` character class on the data alphabet. -/
def isDigit09 (c : Char) : Bool := '0' ≤ c && c ≤ '9'

/-- Code extraction `df['Attività'].str.extract(r'^([A-Z]\d+)')` of `data_loader.py` line 59:
one uppercase letter followed by a maximal nonempty run of digits, anchored
at the start of the activity text; `NaN` (None) when the cell is `NaN` or the
text does not start with an uppercase letter followed by a digit. -/
def extractCode : Option String → Option String
  | none => none
  | some s =>
    match s.data with
    | [] => none
    | c :: rest =>
      if isUpperAZ c then
        let ds := rest.takeWhile isDigit09
        if ds.isEmpty then none else some ⟨c :: ds⟩
      else none

/-- Leap-year rule of the Gregorian calendar (Python `datetime`). -/
def isLeap (y : Nat) : Bool := y % 4 == 0 && (y % 100 != 0 || y % 400 == 0)

/-- Number of days of month `m` of year `y`. -/
def daysInMonth (m y : Nat) : Nat :=
  if m == 2 then (if isLeap y then 29 else 28)
  else if m == 4 || m == 6 || m == 9 || m == 11 then 30 else 31

/-- Numeric value of a digit string. -/
def digitsToNat (l : List Char) : Nat :=
  l.foldl (fun acc c => 10 * acc + (c.toNat - '0'.toNat)) 0

/-- All characters are digits and the field is nonempty. -/
def allDigits (l : List Char) : Bool := !l.isEmpty && l.all isDigit09

/-- Split a character list at every separator (semantics of `String.split`:
`"a/b"` gives `["a", "b"]`, an empty text gives `[""]`, adjacent separators
give empty fields). -/
def splitSep (p : Char → Bool) : List Char → List (List Char)
  | [] => [[]]
  | c :: rest =>
    let r := splitSep p rest
    if p c then [] :: r
    else
      match r with
      | [] => [[c]]
      | h :: t => (c :: h) :: t

/-- Parsing `pd.to_datetime(·, format='%d/%m/%Y', errors='coerce')` on a single string
cell (`data_loader.py` lines 82-86): day/month/year separated by `/`, day and
month of one or two digits, year of up to four digits, validated as a real
calendar date; any failure coerces to `NaT` (`none`). -/
def parseDateStr (s : String) : Option Date :=
  match splitSep (· == '/') s.data with
  | [d, m, y] =>
    if allDigits d && allDigits m && allDigits y
        && d.length ≤ 2 && m.length ≤ 2 && y.length ≤ 4 then
      let dn := digitsToNat d
      let mn := digitsToNat m
      let yn := digitsToNat y
      if 1 ≤ mn && mn ≤ 12 && 1 ≤ dn && dn ≤ daysInMonth mn yn then
        some ⟨dn, mn, yn⟩
      else none
    else none
  | _ => none

/-- Date parsing of an optional cell: a `NaN` cell coerces to `NaT`. -/
def parseDate : Option String → Option Date
  | none => none
  | some s => parseDateStr s

/-- A discarded row: the raw row, its original 1-based spreadsheet line
(`_indice_originale`) and the human-readable exclusion reason
(`_motivo_esclusione`). -/
structure Discarded where
  raw : RawRow
  indice : Nat
  motivo : String
deriving Repr, DecidableEq

/-- A valid row: the raw row augmented with its original line, the extracted
action code (`Codice`), the action type (`Tipo`, first character of the
code), the reference date (`Data Riferimento`) and the year-month period
(`Anno-Mese`). -/
structure ValidRow where
  raw : RawRow
  indice : Nat
  codice : String
  tipo : String
  dataRif : Option Date
  annoMese : Option (Nat × Nat)
deriving Repr, DecidableEq

/-- Stage 1 of `DataLoader.load` (lines 46-53): for each excluded event in
list order, the rows whose event cell equals it are removed from the working
frame and recorded as discarded with reason `"Evento escluso: <evento>"`.
Returns (surviving rows, discarded records in recording order). -/
def eventLoop : List String → List (RawRow × Nat) → List (RawRow × Nat) × List Discarded
  | [], df => (df, [])
  | ev :: rest, df =>
    let matched := df.filter (fun r => r.1.evento == some ev)
    let remaining := df.filter (fun r => !(r.1.evento == some ev))
    let res := eventLoop rest remaining
    (res.1, matched.map (fun r => ⟨r.1, r.2, "Evento escluso: " ++ ev⟩) ++ res.2)

/-- Exclusion reason of stage 2 (`data_loader.py` lines 65-67): a non-null
unmapped code names the code, a null code gives the generic reason. -/
def motivoCodice : Option String → String
  | some c => "Codice non in tariffe: " ++ c
  | none => "Codice non riconosciuto"

/-- Membership `isin(self.codici_validi)` of the extracted code: `NaN` is never a member. -/
def codeOk (codici : List String) : Option String → Bool
  | some c => codici.contains c
  | none => false

/-- Stage 4 valid-row construction (`data_loader.py` lines 72-89): action type
is the first character of the code; the reference date comes from the
proposed-date cell exactly for code `C06` and from the completion-date cell
otherwise, then is parsed with coercion; the period is its year-month. -/
def mkValid (t : RawRow × Nat × Option String) : ValidRow :=
  let codice := t.2.2.getD ""
  let chosen := if codice == "C06" then t.1.dataProposta else t.1.dataFine
  let d := parseDate chosen
  { raw := t.1, indice := t.2.1, codice := codice, tipo := codice.take 1,
    dataRif := d, annoMese := d.map (fun dt => (dt.year, dt.month)) }

/-- The loader `DataLoader.load` (`data_loader.py` lines 25-97) on already-read rows:
rows are tagged with their original spreadsheet line (`index + 2`), the
event-exclusion loop runs first, the action code is extracted from the
survivors, rows whose code is not a tariff key are discarded, and the
remaining rows become valid rows.  The discarded table concatenates the
per-event blocks followed by the invalid-code block, in frame order. -/
def loadRows (tariffe : List (String × ℚ)) (escludi : List String)
    (rows : List RawRow) : List ValidRow × List Discarded :=
  let codici := tariffe.map Prod.fst
  let indexed := rows.enum.map (fun p => (p.2, p.1 + 2))
  let ev := eventLoop escludi indexed
  let withCode := ev.1.map (fun r => (r.1, r.2, extractCode r.1.attivita))
  let invalid := withCode.filter (fun t => !(codeOk codici t.2.2))
  let validRaw := withCode.filter (fun t => codeOk codici t.2.2)
  let discCode := invalid.map (fun t => ⟨t.1, t.2.1, motivoCodice t.2.2⟩)
  (validRaw.map mkValid, ev.2 ++ discCode)

/-- Column-presence gate: accessing column `col` of a frame whose schema lacks
it raises a pandas `KeyError` naming that column. -/
def requireCol (schema : List String) (col : String) : Except String Unit :=
  if schema.contains col then Except.ok () else Except.error ("KeyError: " ++ col)

/-- The per-row column accesses of `data_loader.py` lines 76-79: the `apply`
lambda reads the proposed-date cell for a `C06` row and the completion-date
cell for any other row, so a missing date column raises only when some
surviving row actually selects it. -/
def checkDates (schema : List String) : List ValidRow → Except String Unit
  | [] => Except.ok ()
  | v :: rest => do
    requireCol schema (if v.codice == "C06" then "Data Proposta" else "Data Fine")
    checkDates schema rest

/-- The loader `DataLoader.load` with the pandas column-access discipline made explicit.
The schema is the list of column names present in the uploaded file.  The
event loop reads column `Evento` only when the excluded-event list is
nonempty (line 48 runs once per listed event); line 59 always reads column
`Attività`; the date columns are read per surviving row as in `checkDates`.
No other column is ever read by `load`: in particular `Destinatario` and
`Operatore` are not required. -/
def loadChecked (schema : List String) (tariffe : List (String × ℚ))
    (escludi : List String) (rows : List RawRow) :
    Except String (List ValidRow × List Discarded) :=
  match (if escludi.isEmpty then Except.ok () else requireCol schema "Evento") with
  | Except.error e => Except.error e
  | Except.ok _ =>
    match requireCol schema "Attività" with
    | Except.error e => Except.error e
    | Except.ok _ =>
      match checkDates schema (loadRows tariffe escludi rows).1 with
      | Except.error e => Except.error e
      | Except.ok _ => Except.ok (loadRows tariffe escludi rows)

example : extractCode (some "A03 colloquio") = some "A03" := by decide
example : extractCode (some "A1234 x") = some "A1234" := by decide
example : extractCode (some "a03") = none := by decide
example : extractCode (some "AB3") = none := by decide
example : parseDateStr "01/01/2024" = some ⟨1, 1, 2024⟩ := by decide
example : parseDateStr "31/02/2024" = none := by decide
example : parseDateStr "29/02/2024" = some ⟨29, 2, 2024⟩ := by decide
example : parseDateStr "29/02/2023" = none := by decide

/-- Insert into a le-sorted list. -/
def insSorted (le : α → α → Bool) (a : α) : List α → List α
  | [] => [a]
  | b :: t => if le a b then a :: b :: t else b :: insSorted le a t

/-- Insertion sort, modelling the `sorted(...)` / `sort_values(...)` calls. -/
def sortByLe (le : α → α → Bool) (l : List α) : List α := l.foldr (insSorted le) []

/-- Sorted list of the distinct values of `l`: the key set of a pandas
`groupby` or `pivot_table` index/column. -/
def sortedDistinct [DecidableEq α] (le : α → α → Bool) (l : List α) : List α :=
  sortByLe le l.dedup

/-- String order used by pandas sorts. -/
def strLe (a b : String) : Bool := !decide (b < a)

/-- Chronological order on (year, month) periods. -/
def natPairLe (a b : Nat × Nat) : Bool :=
  decide (a.1 < b.1) || (a.1 == b.1 && decide (a.2 ≤ b.2))

/-- Lexicographic order on (operator, month-string) pairs. -/
def pairStrLe (a b : String × String) : Bool :=
  decide (a.1 < b.1) || (a.1 == b.1 && strLe a.2 b.2)

/-- Decimal digits of a natural number. -/
def natDigits (n : Nat) : List Char := Nat.toDigits 10 n

/-- Left-pad with zeros to width `k`. -/
def padZeros (k : Nat) (s : List Char) : List Char :=
  List.replicate (k - s.length) '0' ++ s

/-- Rendering `str(period)` of a pandas `Period('M')`: `YYYY-MM`. -/
def formatPeriod (p : Nat × Nat) : String :=
  ⟨padZeros 4 (natDigits p.1) ++ '-' :: padZeros 2 (natDigits p.2)⟩

/-- Conversion `astype(str)` on the `Anno-Mese` column: a missing period stringifies to
the literal `"NaT"`. -/
def meseStr : Option (Nat × Nat) → String
  | none => "NaT"
  | some p => formatPeriod p

/-- Distinct codes present among the valid rows (`groupby('Codice')` keys). -/
def codesOf (vs : List ValidRow) : List String :=
  sortedDistinct strLe (vs.map (·.codice))

/-- Distinct action types present (`groupby('Tipo')` keys). -/
def tipiOf (vs : List ValidRow) : List String :=
  sortedDistinct strLe (vs.map (·.tipo))

/-- Distinct non-null operators: a pivot on `Operatore` drops `NaN` keys. -/
def operatoriOf (vs : List ValidRow) : List String :=
  sortedDistinct strLe (vs.filterMap (·.raw.operatore))

/-- Distinct stringified months, including the `"NaT"` label when some row
has a null period. -/
def mesiOf (vs : List ValidRow) : List String :=
  sortedDistinct strLe (vs.map (fun v => meseStr v.annoMese))

/-- Distinct raw (non-null) periods: a pivot on the raw `Anno-Mese` column
drops `NaT` keys. -/
def periodiOf (vs : List ValidRow) : List (Nat × Nat) :=
  sortedDistinct natPairLe (vs.filterMap (·.annoMese))

/-- Distinct (operator, stringified month) pairs; rows with a `NaN` operator
are dropped by the pivot index. -/
def opMesePairs (vs : List ValidRow) : List (String × String) :=
  sortedDistinct pairStrLe
    (vs.filterMap (fun v => v.raw.operatore.map (fun o => (o, meseStr v.annoMese))))

/-- Aggregation `AnalisiPolitiche.conteggio_totale_tipo` (`analysis.py` lines 102-114):
per-type counts and per-code counts concatenated, sorted by label, followed
by a `TOTALE` row counting every valid row. -/
def conteggioTotaleTipo (vs : List ValidRow) : List (String × Nat) :=
  let byTipo := (tipiOf vs).map (fun t => (t, vs.countP (fun v => v.tipo == t)))
  let byCod := (codesOf vs).map (fun c => (c, vs.countP (fun v => v.codice == c)))
  sortByLe (fun a b => strLe a.1 b.1) (byTipo ++ byCod) ++ [("TOTALE", vs.length)]

/-- One row of `conteggio_per_operatore`: the operator, the counts for the
sorted tariff codes, and the `Totale` column summing the tariff-code counts. -/
structure RigaOperatore where
  operatore : String
  conteggi : List Nat
  totale : Nat
deriving Repr, DecidableEq

/-- Aggregation `AnalisiPolitiche.conteggio_per_operatore` (`analysis.py` lines 132-147):
pivot on the non-null operators, columns zero-filled over the tariff codes,
`Totale` summing the tariff-code columns. -/
def conteggioPerOperatore (tariffe : List (String × ℚ)) (vs : List ValidRow) :
    List RigaOperatore :=
  let codici := tariffe.map Prod.fst
  let cols := sortByLe strLe codici
  (operatoriOf vs).map (fun o =>
    { operatore := o
      conteggi := cols.map (fun c =>
        vs.countP (fun v => v.raw.operatore == some o && v.codice == c))
      totale := (codici.map (fun c =>
        vs.countP (fun v => v.raw.operatore == some o && v.codice == c))).sum })

/-- Aggregation `AnalisiPolitiche.conteggio_totale_tipo_mese` (`analysis.py` lines
116-130): pivot of types against the raw (non-null) periods, with a final
`TOTALE` row holding the column sums. -/
def conteggioTotaleTipoMese (vs : List ValidRow) : List (String × List Nat) :=
  let per := periodiOf vs
  let rows := (tipiOf vs).map (fun t =>
    (t, per.map (fun p => vs.countP (fun v => v.tipo == t && v.annoMese == some p))))
  let tots := per.map (fun p =>
    ((tipiOf vs).map (fun t =>
      vs.countP (fun v => v.tipo == t && v.annoMese == some p))).sum)
  rows ++ [("TOTALE", tots)]

/-- One row of `conteggio_per_operatore_mese`. -/
structure RigaOperatoreMese where
  operatore : String
  mese : String
  conteggi : List Nat
  totale : Nat
deriving Repr, DecidableEq

/-- Aggregation `AnalisiPolitiche.conteggio_per_operatore_mese` (`analysis.py` lines
149-167): the period is stringified first (so a null period becomes the
label `"NaT"`), then the frame is pivoted on (operator, month) pairs with
zero-filled tariff-code columns and a `Totale` column. -/
def conteggioPerOperatoreMese (tariffe : List (String × ℚ)) (vs : List ValidRow) :
    List RigaOperatoreMese :=
  let codici := tariffe.map Prod.fst
  let cols := sortByLe strLe codici
  (opMesePairs vs).map (fun om =>
    { operatore := om.1
      mese := om.2
      conteggi := cols.map (fun c => vs.countP (fun v =>
        v.raw.operatore == some om.1 && meseStr v.annoMese == om.2 && v.codice == c))
      totale := (codici.map (fun c => vs.countP (fun v =>
        v.raw.operatore == some om.1 && meseStr v.annoMese == om.2 && v.codice == c))).sum })

/-- One row of `calcolo_ricavi_per_mese`. -/
structure RigaRicaviMese where
  mese : String
  conteggi : List Nat
  ricavi : List ℚ
  totConteggio : Nat
  totRicavo : ℚ
deriving Repr, DecidableEq

/-- Aggregation `AnalisiPolitiche.calcolo_ricavi_per_mese` (`analysis.py` lines 169-194):
the period is stringified first (null becomes `"NaT"`), the frame is pivoted
on the month string with zero-filled tariff-code columns, each code column is
multiplied by its rate, and `Totale_Conteggio` / `Totale_Ricavo` sum the code
and revenue columns. -/
def calcoloRicaviPerMese (tariffe : List (String × ℚ)) (vs : List ValidRow) :
    List RigaRicaviMese :=
  let cols := sortByLe strLe (tariffe.map Prod.fst)
  (mesiOf vs).map (fun m =>
    let cnt := fun c => vs.countP (fun v => meseStr v.annoMese == m && v.codice == c)
    { mese := m
      conteggi := cols.map cnt
      ricavi := cols.map (fun c => (cnt c : ℚ) * ((tariffe.lookup c).getD 0))
      totConteggio := (cols.map cnt).sum
      totRicavo := (cols.map (fun c => (cnt c : ℚ) * ((tariffe.lookup c).getD 0))).sum })

/-- One row of `andamento_mensile`. -/
structure RigaAndamento where
  mese : String
  conteggi : List Nat
  totale : Nat
deriving Repr, DecidableEq

/-- Aggregation `AnalisiPolitiche.andamento_mensile` (`analysis.py` lines 241-255): the
period is stringified first (null becomes `"NaT"`), then the frame is pivoted
on the month string against every distinct type, with a `Totale` column
summing all type columns. -/
def andamentoMensile (vs : List ValidRow) : List RigaAndamento :=
  (mesiOf vs).map (fun m =>
    let cnt := fun t => vs.countP (fun v => meseStr v.annoMese == m && v.tipo == t)
    { mese := m
      conteggi := (tipiOf vs).map cnt
      totale := ((tipiOf vs).map cnt).sum })

/-- One row of `riepilogo_ricavi`: code, rate (null when the code is not a
tariff key, and on the `TOTALE` row), count and revenue. -/
structure RigaRicavo where
  codice : String
  tariffa : Option ℚ
  conteggio : Nat
  ricavo : Option ℚ
deriving Repr, DecidableEq

/-- Aggregation `AnalisiPolitiche.riepilogo_ricavi` (`analysis.py` lines 196-211): one
row per code present among the valid rows with its count, mapped rate and
`count × rate` revenue, followed by a `TOTALE` row whose count and revenue
sum the previous rows (a `NaN` revenue is skipped by the pandas sum). -/
def riepilogoRicavi (tariffe : List (String × ℚ)) (vs : List ValidRow) :
    List RigaRicavo :=
  let rows := (codesOf vs).map (fun c =>
    let n := vs.countP (fun v => v.codice == c)
    { codice := c, tariffa := tariffe.lookup c, conteggio := n,
      ricavo := (tariffe.lookup c).map (fun q => (n : ℚ) * q) : RigaRicavo })
  rows ++ [{ codice := "TOTALE", tariffa := none,
             conteggio := (rows.map (·.conteggio)).sum,
             ricavo := some ((rows.filterMap (·.ricavo)).sum) }]

/-- Aggregation `AnalisiPolitiche.ricavi_totali` (`analysis.py` lines 213-220): the sum
over the tariff mapping of `(count of valid rows with that code) × rate`,
where an absent code contributes count 0. -/
def ricaviTotali (tariffe : List (String × ℚ)) (vs : List ValidRow) : ℚ :=
  (tariffe.map (fun ct => (vs.countP (fun v => v.codice == ct.1) : ℚ) * ct.2)).sum

theorem insSorted_perm (le : α → α → Bool) (a : α) (l : List α) :
    List.Perm (insSorted le a l) (a :: l) := by
  induction l with
  | nil => exact List.Perm.refl _
  | cons b t ih =>
    simp only [insSorted]
    split
    · exact List.Perm.refl _
    · exact (ih.cons b).trans (List.Perm.swap a b t)

theorem sortByLe_perm (le : α → α → Bool) (l : List α) :
    List.Perm (sortByLe le l) l := by
  induction l with
  | nil => exact List.Perm.refl _
  | cons a t ih =>
    simp only [sortByLe, List.foldr_cons]
    exact (insSorted_perm le a _).trans (ih.cons a)

theorem sortedDistinct_nodup [DecidableEq α] (le : α → α → Bool) (l : List α) :
    (sortedDistinct le l).Nodup :=
  ((sortByLe_perm le l.dedup).nodup_iff).2 (List.nodup_dedup l)

theorem mem_sortedDistinct [DecidableEq α] {le : α → α → Bool} {a : α} {l : List α} :
    a ∈ sortedDistinct le l ↔ a ∈ l := by
  unfold sortedDistinct
  rw [(sortByLe_perm le l.dedup).mem_iff, List.mem_dedup]

theorem sum_map_split {M : Type _} [AddCommMonoid M] (p : α → Bool) (f : α → M)
    (l : List α) :
    ((l.filter p).map f).sum + ((l.filter (fun a => !p a)).map f).sum
      = (l.map f).sum := by
  induction l with
  | nil => simp
  | cons a t ih =>
    by_cases h : p a
    · have h1 : List.filter p (a :: t) = a :: List.filter p t := by
        simp [List.filter_cons, h]
      have h2 : List.filter (fun x => !p x) (a :: t) = List.filter (fun x => !p x) t := by
        simp [List.filter_cons, h]
      rw [h1, h2, List.map_cons, List.sum_cons, add_assoc, ih, List.map_cons,
        List.sum_cons]
    · have h' : p a = false := by simpa using h
      have h1 : List.filter p (a :: t) = List.filter p t := by
        simp [List.filter_cons, h']
      have h2 : List.filter (fun x => !p x) (a :: t) = a :: List.filter (fun x => !p x) t := by
        simp [List.filter_cons, h']
      rw [h1, h2, List.map_cons, List.sum_cons, add_left_comm, ih, List.map_cons,
        List.sum_cons]

theorem sum_map_filter_single {M : Type _} [AddCommMonoid M] [BEq κ] [LawfulBEq κ]
    (f : κ → M) (K : κ) {ks : List κ} (h : ks.Nodup) :
    ((ks.filter (fun k => k == K)).map f).sum = if K ∈ ks then f K else 0 := by
  induction ks with
  | nil => simp
  | cons k t ih =>
    rw [List.nodup_cons] at h
    by_cases hk : k = K
    · subst hk
      have ht : t.filter (fun x => x == k) = [] := by
        refine List.filter_eq_nil_iff.2 (fun x hx hbeq => ?_)
        rw [beq_iff_eq] at hbeq
        exact h.1 (hbeq ▸ hx)
      simp [List.filter_cons, ht]
    · have hbeq : (k == K) = false := beq_eq_false_iff_ne.2 hk
      have hne : ¬K = k := fun he => hk he.symm
      rw [List.filter_cons, hbeq]
      simp only [if_false, Bool.false_eq_true]
      rw [ih h.2]
      simp [List.mem_cons, hne]

theorem sum_map_ite_zero [BEq κ] [LawfulBEq κ] {ks : List κ} {k0 : κ} (h : k0 ∉ ks) :
    (ks.map (fun k => if k0 == k then (1 : Nat) else 0)).sum = 0 := by
  induction ks with
  | nil => simp
  | cons k t ih =>
    have h1 : k0 ≠ k := fun he => h (he ▸ List.mem_cons_self k t)
    have h2 : k0 ∉ t := fun hm => h (List.mem_cons_of_mem k hm)
    simp [beq_eq_false_iff_ne.2 h1, ih h2]

theorem sum_map_ite_one [BEq κ] [LawfulBEq κ] {ks : List κ} {k0 : κ}
    (hnd : ks.Nodup) (hm : k0 ∈ ks) :
    (ks.map (fun k => if k0 == k then (1 : Nat) else 0)).sum = 1 := by
  induction ks with
  | nil => cases hm
  | cons k t ih =>
    rw [List.nodup_cons] at hnd
    by_cases hk : k0 = k
    · subst hk
      simp [sum_map_ite_zero hnd.1]
    · rcases List.mem_cons.1 hm with he | hm'
      · exact absurd he hk
      · simp [beq_eq_false_iff_ne.2 hk, ih hnd.2 hm']

theorem sum_countP_key [BEq κ] [LawfulBEq κ] (ks : List κ) (key : α → Option κ)
    (l : List α) (hnd : ks.Nodup)
    (hcov : ∀ a ∈ l, ∀ k, key a = some k → k ∈ ks) :
    (ks.map (fun k => l.countP (fun a => key a == some k))).sum
      = l.countP (fun a => (key a).isSome) := by
  induction l with
  | nil =>
    rw [List.countP_nil]
    exact List.sum_eq_zero (by simp)
  | cons a t ih =>
    have hcovt : ∀ x ∈ t, ∀ k, key x = some k → k ∈ ks :=
      fun x hx => hcov x (List.mem_cons_of_mem a hx)
    simp only [List.countP_cons]
    rw [List.sum_map_add, ih hcovt]
    congr 1
    cases hka : key a with
    | none =>
      rw [List.sum_eq_zero ?_]
      · simp
      · intro x hx
        obtain ⟨k, _, rfl⟩ := List.mem_map.1 hx
        simp
    | some k0 =>
      have hk0 : k0 ∈ ks := hcov a (List.mem_cons_self a t) k0 hka
      have hrw : ∀ k ∈ ks, (if some k0 == some k then (1 : Nat) else 0)
          = (if k0 == k then (1 : Nat) else 0) := by
        intro k _
        simp
      rw [List.map_congr_left hrw, sum_map_ite_one hnd hk0]
      simp

theorem formatPeriod_length (p : Nat × Nat) : 7 ≤ (formatPeriod p).length := by
  show 7 ≤ (padZeros 4 (natDigits p.1) ++ '-' :: padZeros 2 (natDigits p.2)).length
  simp only [padZeros, List.length_append, List.length_replicate, List.length_cons]
  omega

theorem meseStr_eq_nat_iff {x : Option (Nat × Nat)} : meseStr x = "NaT" ↔ x = none := by
  cases x with
  | none => simp [meseStr]
  | some p =>
    simp only [meseStr]
    constructor
    · intro h
      have h7 := formatPeriod_length p
      rw [h] at h7
      exact absurd h7 (by decide)
    · intro h
      cases h

theorem lookup_of_mem_nodup {t : List (String × ℚ)} (hnd : (t.map Prod.fst).Nodup)
    {c : String} {q : ℚ} (h : (c, q) ∈ t) : t.lookup c = some q := by
  induction t with
  | nil => cases h
  | cons p rest ih =>
    obtain ⟨k, b⟩ := p
    rw [List.map_cons, List.nodup_cons] at hnd
    rcases List.mem_cons.1 h with he | h'
    · cases he
      simp [List.lookup]
    · have hne : c ≠ k := by
        rintro rfl
        exact hnd.1 (List.mem_map.2 ⟨(c, q), h', rfl⟩)
      rw [List.lookup_cons]
      simp only [beq_eq_false_iff_ne.2 hne]
      exact ih hnd.2 h'

open List in
theorem eventLoop_idx_perm (esc : List String) (df : List (RawRow × Nat)) :
    List.Perm
      ((eventLoop esc df).1.map Prod.snd ++ (eventLoop esc df).2.map Discarded.indice)
      (df.map Prod.snd) := by
  induction esc generalizing df with
  | nil => simp [eventLoop]
  | cons ev rest ih =>
    simp only [eventLoop]
    have hmk : (List.map Discarded.indice
        ((df.filter (fun r => r.1.evento == some ev)).map
          (fun r => (⟨r.1, r.2, "Evento escluso: " ++ ev⟩ : Discarded))))
        = (df.filter (fun r => r.1.evento == some ev)).map Prod.snd := by
      rw [List.map_map]
      rfl
    set m := df.filter (fun r => r.1.evento == some ev) with hm
    set rem := df.filter (fun r => !(r.1.evento == some ev)) with hrem
    set res := eventLoop rest rem with hres
    calc res.1.map Prod.snd ++ List.map Discarded.indice
            ((m.map (fun r => (⟨r.1, r.2, "Evento escluso: " ++ ev⟩ : Discarded)))
              ++ res.2)
        = res.1.map Prod.snd ++ (m.map Prod.snd ++ res.2.map Discarded.indice) := by
          rw [List.map_append, hmk]
      _ ~ res.1.map Prod.snd ++ (res.2.map Discarded.indice ++ m.map Prod.snd) :=
          List.Perm.append_left _ (List.perm_append_comm)
      _ = (res.1.map Prod.snd ++ res.2.map Discarded.indice) ++ m.map Prod.snd := by
          rw [List.append_assoc]
      _ ~ rem.map Prod.snd ++ m.map Prod.snd := (ih rem).append_right _
      _ = (rem ++ m).map Prod.snd := (List.map_append _ _ _).symm
      _ ~ (m ++ rem).map Prod.snd := (List.perm_append_comm).map _
      _ ~ df.map Prod.snd := (List.filter_append_perm _ df).map _

open List in
theorem loadRows_idx_perm (t : List (String × ℚ)) (esc : List String)
    (rows : List RawRow) :
    List.Perm
      ((loadRows t esc rows).1.map ValidRow.indice
        ++ (loadRows t esc rows).2.map Discarded.indice)
      ((List.range rows.length).map (· + 2)) := by
  simp only [loadRows]
  set codici := t.map Prod.fst with hcod
  set indexed := rows.enum.map (fun p => (p.2, p.1 + 2)) with hidx
  set ev := eventLoop esc indexed with hev
  set wc := ev.1.map (fun r => (r.1, r.2, extractCode r.1.attivita)) with hwc
  have hA : ((wc.filter (fun x => codeOk codici x.2.2)).map mkValid).map ValidRow.indice
      = (wc.filter (fun x => codeOk codici x.2.2)).map (fun x => x.2.1) := by
    rw [List.map_map]
    rfl
  have hC : ((wc.filter (fun x => !codeOk codici x.2.2)).map
        (fun x => (⟨x.1, x.2.1, motivoCodice x.2.2⟩ : Discarded))).map Discarded.indice
      = (wc.filter (fun x => !codeOk codici x.2.2)).map (fun x => x.2.1) := by
    rw [List.map_map]
    rfl
  have hW : wc.map (fun x => x.2.1) = ev.1.map Prod.snd := by
    rw [hwc, List.map_map]
    rfl
  have hI : indexed.map Prod.snd = (List.range rows.length).map (· + 2) := by
    rw [hidx, List.map_map, ← List.enum_map_fst rows, List.map_map]
    rfl
  calc List.map ValidRow.indice
          (List.map mkValid (wc.filter (fun x => codeOk codici x.2.2)))
        ++ List.map Discarded.indice
          (ev.2 ++ (wc.filter (fun x => !codeOk codici x.2.2)).map
            (fun x => (⟨x.1, x.2.1, motivoCodice x.2.2⟩ : Discarded)))
      = (wc.filter (fun x => codeOk codici x.2.2)).map (fun x => x.2.1)
        ++ (ev.2.map Discarded.indice
            ++ (wc.filter (fun x => !codeOk codici x.2.2)).map (fun x => x.2.1)) := by
        rw [List.map_append, hA, hC]
    _ ~ (wc.filter (fun x => codeOk codici x.2.2)).map (fun x => x.2.1)
        ++ ((wc.filter (fun x => !codeOk codici x.2.2)).map (fun x => x.2.1)
            ++ ev.2.map Discarded.indice) :=
        Perm.append_left _ perm_append_comm
    _ = ((wc.filter (fun x => codeOk codici x.2.2)).map (fun x => x.2.1)
        ++ (wc.filter (fun x => !codeOk codici x.2.2)).map (fun x => x.2.1))
        ++ ev.2.map Discarded.indice := by rw [List.append_assoc]
    _ = ((wc.filter (fun x => codeOk codici x.2.2)
        ++ wc.filter (fun x => !codeOk codici x.2.2)).map (fun x => x.2.1))
        ++ ev.2.map Discarded.indice := by rw [List.map_append]
    _ ~ wc.map (fun x => x.2.1) ++ ev.2.map Discarded.indice :=
        Perm.append_right _ ((filter_append_perm _ wc).map _)
    _ = ev.1.map Prod.snd ++ ev.2.map Discarded.indice := by rw [hW]
    _ ~ indexed.map Prod.snd := by
        rw [hev]
        exact eventLoop_idx_perm esc indexed
    _ = (List.range rows.length).map (· + 2) := hI

theorem loadRows_idx_nodup (t : List (String × ℚ)) (esc : List String)
    (rows : List RawRow) :
    ((loadRows t esc rows).1.map ValidRow.indice
      ++ (loadRows t esc rows).2.map Discarded.indice).Nodup := by
  refine (loadRows_idx_perm t esc rows).nodup_iff.2 ?_
  exact (List.nodup_range rows.length).map (fun a b hab => by omega)

theorem eventLoop_surv_subset {esc : List String} {df : List (RawRow × Nat)}
    {x : RawRow × Nat} (h : x ∈ (eventLoop esc df).1) : x ∈ df := by
  induction esc generalizing df with
  | nil => simpa [eventLoop] using h
  | cons ev rest ih =>
    simp only [eventLoop] at h
    exact (List.mem_filter.1 (ih h)).1

theorem eventLoop_mem_surv {esc : List String} {df : List (RawRow × Nat)}
    {x : RawRow × Nat} (hx : x ∈ df) (h : ∀ e ∈ esc, x.1.evento ≠ some e) :
    x ∈ (eventLoop esc df).1 := by
  induction esc generalizing df with
  | nil => simpa [eventLoop] using hx
  | cons ev rest ih =>
    simp only [eventLoop]
    refine ih ?_ (fun e he => h e (List.mem_cons_of_mem ev he))
    refine List.mem_filter.2 ⟨hx, ?_⟩
    have hne := h ev (List.mem_cons_self ev rest)
    simp only [Bool.not_eq_true', beq_eq_false_iff_ne]
    exact hne

theorem eventLoop_surv_not_excluded {esc : List String} {df : List (RawRow × Nat)}
    {x : RawRow × Nat} (h : x ∈ (eventLoop esc df).1) :
    ∀ e ∈ esc, x.1.evento ≠ some e := by
  induction esc generalizing df with
  | nil => simp
  | cons ev rest ih =>
    simp only [eventLoop] at h
    intro e he
    rcases List.mem_cons.1 he with rfl | he'
    · have hx := eventLoop_surv_subset h
      have hne := (List.mem_filter.1 hx).2
      simp only [Bool.not_eq_true', beq_eq_false_iff_ne] at hne
      exact hne
    · exact ih h e he'

theorem eventLoop_discard_mem {esc : List String} {df : List (RawRow × Nat)}
    {x : RawRow × Nat} {e : String}
    (hx : x ∈ df) (hev : x.1.evento = some e) (he : e ∈ esc) :
    ∃ d ∈ (eventLoop esc df).2, d.raw = x.1 ∧ d.indice = x.2 ∧
      d.motivo = "Evento escluso: " ++ e := by
  induction esc generalizing df with
  | nil => cases he
  | cons ev rest ih =>
    simp only [eventLoop]
    by_cases hcase : e = ev
    · subst hcase
      refine ⟨⟨x.1, x.2, "Evento escluso: " ++ e⟩, ?_, rfl, rfl, rfl⟩
      apply List.mem_append_left
      refine List.mem_map.2 ⟨x, ?_, rfl⟩
      refine List.mem_filter.2 ⟨hx, ?_⟩
      rw [hev]
      exact beq_self_eq_true _
    · have he' : e ∈ rest := by
        rcases List.mem_cons.1 he with h | h
        · exact absurd h hcase
        · exact h
      have hxr : x ∈ df.filter (fun r => !(r.1.evento == some ev)) := by
        refine List.mem_filter.2 ⟨hx, ?_⟩
        simp only [Bool.not_eq_true', beq_eq_false_iff_ne]
        rw [hev]
        intro hcon
        exact hcase (Option.some.inj hcon)
      obtain ⟨d, hd, hprops⟩ := ih hxr he'
      exact ⟨d, List.mem_append_right _ hd, hprops⟩

theorem mem_indexed {rows : List RawRow} {i : Nat} {r : RawRow}
    (h : rows[i]? = some r) :
    (r, i + 2) ∈ rows.enum.map (fun p => (p.2, p.1 + 2)) :=
  List.mem_map.2 ⟨(i, r), List.mem_enum_iff_getElem?.2 h, rfl⟩

theorem loadRows_event_discard {tariffe : List (String × ℚ)} {escludi : List String}
    {rows : List RawRow} {i : Nat} {r : RawRow} {e : String}
    (hget : rows[i]? = some r) (hev : r.evento = some e) (he : e ∈ escludi) :
    ∃ d ∈ (loadRows tariffe escludi rows).2,
      d.raw = r ∧ d.indice = i + 2 ∧ d.motivo = "Evento escluso: " ++ e := by
  obtain ⟨d, hd, h1, h2, h3⟩ :=
    eventLoop_discard_mem (mem_indexed hget) hev he
  refine ⟨d, ?_, h1, h2, h3⟩
  simp only [loadRows]
  exact List.mem_append_left _ hd

theorem loadRows_discard_inj {tariffe : List (String × ℚ)} {escludi : List String}
    {rows : List RawRow} {d d' : Discarded}
    (hd : d ∈ (loadRows tariffe escludi rows).2)
    (hd' : d' ∈ (loadRows tariffe escludi rows).2)
    (hi : d.indice = d'.indice) : d = d' := by
  have hnd : ((loadRows tariffe escludi rows).2.map Discarded.indice).Nodup :=
    (loadRows_idx_nodup tariffe escludi rows).of_append_right
  exact List.inj_on_of_nodup_map hnd hd hd' hi

/-- C1: for every input row list, tariff mapping and excluded-event list,
`load` partitions the input: the number of valid rows plus the number of
discarded rows equals the number of input rows, and the original spreadsheet
line numbers carried by the two outputs are globally distinct, so no input
row appears in both outputs. -/
theorem C1_load_partition (tariffe : List (String × ℚ)) (escludi : List String)
    (rows : List RawRow) :
    (loadRows tariffe escludi rows).1.length
        + (loadRows tariffe escludi rows).2.length = rows.length ∧
    ((loadRows tariffe escludi rows).1.map ValidRow.indice
      ++ (loadRows tariffe escludi rows).2.map Discarded.indice).Nodup := by
  refine ⟨?_, loadRows_idx_nodup tariffe escludi rows⟩
  have h := (loadRows_idx_perm tariffe escludi rows).length_eq
  simpa using h

/-- C2: a row whose event equals an entry of the excluded-event list and
whose activity yields a null or unmapped code is discarded with the
event-exclusion reason naming the event; every discard record carrying that
row's line number bears the event reason, never a code-related one. -/
theorem C2_event_exclusion_precedence (tariffe : List (String × ℚ))
    (escludi : List String) (rows : List RawRow) {i : Nat} {r : RawRow} {e : String}
    (hget : rows[i]? = some r) (hev : r.evento = some e) (he : e ∈ escludi)
    (_hbad : codeOk (tariffe.map Prod.fst) (extractCode r.attivita) = false) :
    (∃ d ∈ (loadRows tariffe escludi rows).2,
        d.indice = i + 2 ∧ d.motivo = "Evento escluso: " ++ e) ∧
    ∀ d ∈ (loadRows tariffe escludi rows).2,
        d.indice = i + 2 → d.motivo = "Evento escluso: " ++ e := by
  obtain ⟨d0, hd0, _, hidx0, hmot0⟩ := loadRows_event_discard hget hev he
  refine ⟨⟨d0, hd0, hidx0, hmot0⟩, ?_⟩
  intro d' hd' hidx'
  have hdd : d' = d0 := loadRows_discard_inj hd' hd0 (by rw [hidx', hidx0])
  rw [hdd, hmot0]

/-- C9 (amended): even when the excluded-event list contains duplicate
occurrences of the matching event, a matching row is recorded in the
discarded output exactly once, with the event reason: the row is removed
from the working frame at its first match and later occurrences match
nothing. -/
theorem C9_duplicate_events_single_record (tariffe : List (String × ℚ))
    (escludi : List String) (rows : List RawRow) {i : Nat} {r : RawRow} {e : String}
    (hget : rows[i]? = some r) (hev : r.evento = some e) (he : e ∈ escludi) :
    (loadRows tariffe escludi rows).2.countP (fun d => d.indice == i + 2) = 1 ∧
    ∀ d ∈ (loadRows tariffe escludi rows).2,
        d.indice = i + 2 → d.motivo = "Evento escluso: " ++ e := by
  obtain ⟨d0, hd0, _, hidx0, hmot0⟩ := loadRows_event_discard hget hev he
  constructor
  · have hnd : ((loadRows tariffe escludi rows).2.map Discarded.indice).Nodup :=
      (loadRows_idx_nodup tariffe escludi rows).of_append_right
    have hcnt : (loadRows tariffe escludi rows).2.countP (fun d => d.indice == i + 2)
        = ((loadRows tariffe escludi rows).2.map Discarded.indice).count (i + 2) := by
      rw [List.count_eq_countP, List.countP_map]
      rfl
    have hub : ((loadRows tariffe escludi rows).2.map Discarded.indice).count (i + 2) ≤ 1 :=
      List.nodup_iff_count_le_one.1 hnd (i + 2)
    have hlb : 1 ≤ ((loadRows tariffe escludi rows).2.map Discarded.indice).count (i + 2) :=
      List.one_le_count_iff.2 (List.mem_map.2 ⟨d0, hd0, hidx0⟩)
    omega
  · intro d' hd' hidx'
    have hdd : d' = d0 := loadRows_discard_inj hd' hd0 (by rw [hidx', hidx0])
    rw [hdd, hmot0]

/-- Sample tariff mapping used by the concrete checks (rates only matter as
opaque values for most claims). -/
def tariffeW : List (String × ℚ) := [("A03", 1), ("C06", 2)]

/-- Sample excluded-event list. -/
def escludiW : List String := ["Proposta"]

/-- A row with an excluded event and an unmapped code. -/
def rowE : RawRow :=
  ⟨some "P1", some "X", some "Z99 visita", some "Proposta", some "01/01/2024", none⟩

/-- Input consisting of the single row `rowE`. -/
def rowsW2 : List RawRow := [rowE]

/-- C2 witness at a concrete input: the row matches both the excluded event
and an invalid code, and is discarded with the event reason. -/
theorem C2_witness :
    (∃ d ∈ (loadRows tariffeW escludiW rowsW2).2,
        d.indice = 0 + 2 ∧ d.motivo = "Evento escluso: " ++ "Proposta") ∧
    ∀ d ∈ (loadRows tariffeW escludiW rowsW2).2,
        d.indice = 0 + 2 → d.motivo = "Evento escluso: " ++ "Proposta" :=
  @C2_event_exclusion_precedence tariffeW escludiW rowsW2 0 rowE "Proposta"
    (by decide) (by decide) (by decide) (by decide)

/-- C9 counterexample: with the duplicated excluded-event list
`["Proposta", "Proposta"]`, the matching row is recorded once, not once per
list occurrence. -/
theorem C9_counterexample :
    ((loadRows tariffeW ["Proposta", "Proposta"] rowsW2).2.map Discarded.motivo)
        = ["Evento escluso: Proposta"] ∧
    (loadRows tariffeW ["Proposta", "Proposta"] rowsW2).2.length ≠ 2 := by
  decide

/-- C9 witness: the amended exactly-once property at the duplicated list. -/
theorem C9_witness :
    (loadRows tariffeW ["Proposta", "Proposta"] rowsW2).2.countP
        (fun d => d.indice == 0 + 2) = 1 ∧
    ∀ d ∈ (loadRows tariffeW ["Proposta", "Proposta"] rowsW2).2,
        d.indice = 0 + 2 → d.motivo = "Evento escluso: " ++ "Proposta" :=
  @C9_duplicate_events_single_record tariffeW ["Proposta", "Proposta"] rowsW2 0 rowE
    "Proposta" (by decide) (by decide) (by decide)

theorem dropWhile_head_not (p : α → Bool) (l : List α) :
    ∀ d rest2, l.dropWhile p = d :: rest2 → p d = false := by
  induction l with
  | nil => intro d r h; cases h
  | cons a t ih =>
    intro d r h
    rw [List.dropWhile_cons] at h
    by_cases hp : p a
    · rw [if_pos hp] at h
      exact ih d r h
    · rw [if_neg hp] at h
      cases h
      simpa using hp

/-- A row whose activity text starts with a letter and more than two digits. -/
def rowLong : RawRow :=
  ⟨some "P2", some "X", some "A1234 colloquio", some "Fatto", some "01/01/2024", none⟩

/-- C3 counterexample: the extraction pattern of the code is `^([A-Z]\d+)`,
not `^[A-Z]\d\d`: from `"A1234 colloquio"` the extracted code is `"A1234"`
(5 characters, refuting the three-character bound), from `"A1 fare"` it is
`"A1"` (where the claim demands null), and a `"A1234"` tariff key makes the
five-character code reach the valid output of `load`. -/
theorem C3_counterexample :
    extractCode (some "A1234 colloquio") = some "A1234" ∧
    ¬ (String.length "A1234" ≤ 3) ∧
    extractCode (some "A1 fare") = some "A1" ∧
    (loadRows [("A1234", (1 : ℚ))] [] [rowLong]).1.map ValidRow.codice = ["A1234"] := by
  refine ⟨by decide, by decide, by decide, rfl⟩

/-- C3 (amended): the Action Code extracted from the activity text is one
uppercase letter followed by the maximal nonempty run of digits at the start
of the text (pattern `^[A-Z]\d+`), of any length; the code is null exactly
when the text does not start with an uppercase letter immediately followed
by a digit. -/
theorem C3_code_extraction (s : String) :
    (∀ c, extractCode (some s) = some c →
      ∃ (ch : Char) (ds rest : List Char),
        s.data = ch :: (ds ++ rest) ∧ c = ⟨ch :: ds⟩ ∧
        isUpperAZ ch = true ∧ ds ≠ [] ∧ (∀ d ∈ ds, isDigit09 d = true) ∧
        (∀ d rest2, rest = d :: rest2 → isDigit09 d = false)) ∧
    (extractCode (some s) = none ↔
      ∀ ch d rest, s.data = ch :: d :: rest →
        (isUpperAZ ch = false ∨ isDigit09 d = false)) := by
  obtain ⟨l⟩ := s
  cases l with
  | nil =>
    constructor
    · intro c h
      exact absurd h (by simp [extractCode])
    · simp [extractCode]
  | cons ch rest =>
    by_cases hu : isUpperAZ ch
    · cases rest with
      | nil =>
        constructor
        · intro c h
          exact absurd h (by simp [extractCode, hu])
        · constructor
          · intro _ ch2 d r2 h2
            cases h2
          · intro _
            simp [extractCode, hu]
      | cons d r2 =>
        by_cases hd : isDigit09 d
        · constructor
          · intro c h
            have hc : c = ⟨ch :: d :: r2.takeWhile isDigit09⟩ := by
              have : extractCode (some ⟨ch :: d :: r2⟩)
                  = some ⟨ch :: d :: r2.takeWhile isDigit09⟩ := by
                simp [extractCode, hu, List.takeWhile_cons, hd]
              rw [this] at h
              exact (Option.some.inj h).symm
            refine ⟨ch, d :: r2.takeWhile isDigit09, r2.dropWhile isDigit09,
              ?_, hc, hu, by simp, ?_, ?_⟩
            · simp [List.takeWhile_append_dropWhile]
            · intro x hx
              rcases List.mem_cons.1 hx with rfl | hx'
              · exact hd
              · exact List.mem_takeWhile_imp hx'
            · exact dropWhile_head_not isDigit09 r2
          · constructor
            · intro h
              exfalso
              have : extractCode (some ⟨ch :: d :: r2⟩) ≠ none := by
                simp [extractCode, hu, List.takeWhile_cons, hd]
              exact this h
            · intro hall
              rcases hall ch d r2 rfl with h | h
              · rw [hu] at h
                cases h
              · rw [hd] at h
                cases h
        · have hnone : extractCode (some ⟨ch :: d :: r2⟩) = none := by
            simp [extractCode, hu, List.takeWhile_cons, hd]
          constructor
          · intro c h
            rw [hnone] at h
            cases h
          · constructor
            · intro _ ch2 d2 r3 h3
              cases h3
              right
              simpa using hd
            · intro _
              exact hnone
    · have hnone : extractCode (some ⟨ch :: rest⟩) = none := by
        cases rest with
        | nil => simp [extractCode]
        | cons d r2 => simp [extractCode, hu]
      constructor
      · intro c h
        rw [hnone] at h
        cases h
      · constructor
        · intro _ ch2 d2 r3 h3
          cases h3
          left
          simpa using hu
        · intro _
          exact hnone

/-- C3 witness: the amended characterization evaluated at `"A12 x"`. -/
theorem C3_witness :
    ∃ (ch : Char) (ds rest : List Char),
      ("A12 x" : String).data = ch :: (ds ++ rest) ∧ ("A12" : String) = ⟨ch :: ds⟩ ∧
      isUpperAZ ch = true ∧ ds ≠ [] ∧ (∀ d ∈ ds, isDigit09 d = true) ∧
      (∀ d rest2, rest = d :: rest2 → isDigit09 d = false) :=
  (C3_code_extraction "A12 x").1 "A12" (by decide)

/-- Schema of an input file lacking the beneficiary column. -/
def schemaNoDest : List String :=
  ["Operatore", "Attività", "Evento", "Data Fine", "Data Proposta"]

/-- A row whose beneficiary cell is missing. -/
def rowND : RawRow :=
  ⟨none, some "X", some "A03 colloquio", some "Fatto", some "02/03/2024", none⟩

/-- C4 counterexample: with the beneficiary column absent from the schema,
`load` does not fail: it succeeds and produces the valid/discarded tables
(one valid row here), because `load` never reads that column. -/
theorem C4_counterexample :
    loadChecked schemaNoDest tariffeW ["Proposta"] [rowND]
        = Except.ok (loadRows tariffeW ["Proposta"] [rowND]) ∧
    (loadRows tariffeW ["Proposta"] [rowND]).1.length = 1 ∧
    (loadRows tariffeW ["Proposta"] [rowND]).2.length = 0 :=
  ⟨rfl, rfl, rfl⟩

/-- C4 (amended): `load` performs no up-front schema validation.  A missing
beneficiary or operator column is never detected (the tables are produced);
the event column is required, with a key error naming only `Evento`, exactly
when the excluded-event list is nonempty; the activity column is always
required, with a key error naming only `Attività`; the date columns are
required only per surviving row.  The failure is a key error naming the
single first-accessed missing column, not a condition carrying all missing
column names. -/
theorem C4_no_schema_validation (schema : List String) (tariffe : List (String × ℚ))
    (escludi : List String) (rows : List RawRow) :
    (escludi ≠ [] → schema.contains "Evento" = false →
      loadChecked schema tariffe escludi rows = Except.error "KeyError: Evento") ∧
    ((escludi = [] ∨ schema.contains "Evento" = true) →
      schema.contains "Attività" = false →
      loadChecked schema tariffe escludi rows = Except.error "KeyError: Attività") ∧
    ((escludi = [] ∨ schema.contains "Evento" = true) →
      schema.contains "Attività" = true →
      checkDates schema (loadRows tariffe escludi rows).1 = Except.ok () →
      loadChecked schema tariffe escludi rows
        = Except.ok (loadRows tariffe escludi rows)) := by
  refine ⟨?_, ?_, ?_⟩
  · intro hne hev
    have h1 : escludi.isEmpty = false := by
      rcases escludi with _ | ⟨a, t⟩
      · exact absurd rfl hne
      · rfl
    unfold loadChecked requireCol
    rw [h1, hev]
    rfl
  · intro hev hatt
    unfold loadChecked requireCol
    rw [hatt]
    rcases hev with rfl | hev
    · rfl
    · cases hE : escludi.isEmpty
      · rw [hev]
        rfl
      · rfl
  · intro hev hatt hdates
    unfold loadChecked requireCol
    rw [hatt, hdates]
    rcases hev with rfl | hev
    · rfl
    · cases hE : escludi.isEmpty
      · rw [hev]
        rfl
      · rfl

/-- C4 witness: a schema lacking the activity column makes `load` fail with
the key error naming `Attività`. -/
theorem C4_witness :
    loadChecked ["Evento", "Data Fine"] tariffeW ["Proposta"] []
        = Except.error "KeyError: Attività" :=
  (C4_no_schema_validation ["Evento", "Data Fine"] tariffeW ["Proposta"] []).2.1
    (Or.inr (by decide)) (by decide)

/-- C5: for every valid row, the Reference Date is the parsed proposed-date
cell exactly when the row's code is `C06`, and the parsed completion-date
cell for every other code. -/
theorem C5_c06_reference_date (tariffe : List (String × ℚ)) (escludi : List String)
    (rows : List RawRow) {v : ValidRow}
    (hv : v ∈ (loadRows tariffe escludi rows).1) :
    (v.codice = "C06" → v.dataRif = parseDate v.raw.dataProposta) ∧
    (v.codice ≠ "C06" → v.dataRif = parseDate v.raw.dataFine) := by
  simp only [loadRows] at hv
  obtain ⟨x, _, rfl⟩ := List.mem_map.1 hv
  constructor
  · intro h
    have h' : x.2.2.getD "" = "C06" := h
    have hb : (x.2.2.getD "" == "C06") = true := beq_iff_eq.mpr h'
    show parseDate (if (x.2.2.getD "" == "C06")
        then x.1.dataProposta else x.1.dataFine) = parseDate x.1.dataProposta
    rw [hb]
    rfl
  · intro h
    have h' : x.2.2.getD "" ≠ "C06" := h
    have hb : (x.2.2.getD "" == "C06") = false := beq_eq_false_iff_ne.mpr h'
    show parseDate (if (x.2.2.getD "" == "C06")
        then x.1.dataProposta else x.1.dataFine) = parseDate x.1.dataFine
    rw [hb]
    rfl

/-- A `C06` row with both dates set. -/
def rowC : RawRow :=
  ⟨some "P3", some "Y", some "C06 inserimento", some "Fatto", some "01/01/2024",
    some "05/06/2024"⟩

/-- Input consisting of the single row `rowC`. -/
def rowsC : List RawRow := [rowC]

/-- The valid row produced from `rowC`: the Reference Date comes from the
proposed date. -/
def vC : ValidRow := ⟨rowC, 2, "C06", "C", some ⟨5, 6, 2024⟩, some (2024, 6)⟩

/-- C5 witness: on the concrete `C06` row, the Reference Date is the parsed
proposed date. -/
theorem C5_witness :
    (vC.codice = "C06" → vC.dataRif = parseDate vC.raw.dataProposta) ∧
    (vC.codice ≠ "C06" → vC.dataRif = parseDate vC.raw.dataFine) :=
  C5_c06_reference_date tariffeW [] rowsC (by decide)

/-- C6: a surviving row whose code is a tariff key is never discarded for an
unparseable or missing chosen date: it reaches the valid output with null
Reference Date and null Period, the `TOTALE` row of the code/type aggregation
still counts every valid row, and the row still contributes to its code's
count. -/
theorem C6_unparseable_date_retained (tariffe : List (String × ℚ))
    (escludi : List String) (rows : List RawRow) {i : Nat} {r : RawRow} {c : String}
    (hget : rows[i]? = some r)
    (hev : ∀ e ∈ escludi, r.evento ≠ some e)
    (hcode : extractCode r.attivita = some c)
    (hkey : c ∈ tariffe.map Prod.fst)
    (hbad : parseDate (if c = "C06" then r.dataProposta else r.dataFine) = none) :
    (∃ v ∈ (loadRows tariffe escludi rows).1,
        v.indice = i + 2 ∧ v.codice = c ∧ v.raw = r ∧
        v.dataRif = none ∧ v.annoMese = none) ∧
    (conteggioTotaleTipo (loadRows tariffe escludi rows).1).getLast?
        = some ("TOTALE", (loadRows tariffe escludi rows).1.length) ∧
    1 ≤ (loadRows tariffe escludi rows).1.countP (fun w => w.codice == c) := by
  have hx : (r, i + 2) ∈ rows.enum.map (fun p => (p.2, p.1 + 2)) := mem_indexed hget
  have hsurv : (r, i + 2)
      ∈ (eventLoop escludi (rows.enum.map (fun p => (p.2, p.1 + 2)))).1 :=
    eventLoop_mem_surv hx hev
  have hok : codeOk (tariffe.map Prod.fst) (extractCode r.attivita) = true := by
    rw [hcode]
    simp [codeOk, List.contains, List.elem_eq_mem, hkey]
  have hmemwc : (r, i + 2, extractCode r.attivita)
      ∈ ((eventLoop escludi (rows.enum.map (fun p => (p.2, p.1 + 2)))).1.map
          (fun x => (x.1, x.2, extractCode x.1.attivita))) :=
    List.mem_map.2 ⟨(r, i + 2), hsurv, rfl⟩
  have hmemf : (r, i + 2, extractCode r.attivita)
      ∈ (List.filter (fun x => codeOk (tariffe.map Prod.fst) x.2.2)
          ((eventLoop escludi (rows.enum.map (fun p => (p.2, p.1 + 2)))).1.map
            (fun x => (x.1, x.2, extractCode x.1.attivita)))) :=
    List.mem_filter.2 ⟨hmemwc, hok⟩
  have hvmem : mkValid (r, i + 2, extractCode r.attivita)
      ∈ (loadRows tariffe escludi rows).1 := by
    simp only [loadRows]
    exact List.mem_map.2 ⟨_, hmemf, rfl⟩
  have hcod : (mkValid (r, i + 2, extractCode r.attivita)).codice = c := by
    show (extractCode r.attivita).getD "" = c
    rw [hcode]
    rfl
  have hdr : (mkValid (r, i + 2, extractCode r.attivita)).dataRif = none := by
    show parseDate (if ((extractCode r.attivita).getD "" == "C06")
        then r.dataProposta else r.dataFine) = none
    rw [hcode]
    by_cases hc : c = "C06"
    · have hb : (((some c).getD "") == "C06") = true := beq_iff_eq.mpr hc
      rw [hb]
      rw [if_pos hc] at hbad
      exact hbad
    · have hb : (((some c).getD "") == "C06") = false := beq_eq_false_iff_ne.mpr hc
      rw [hb]
      rw [if_neg hc] at hbad
      exact hbad
  have ham : (mkValid (r, i + 2, extractCode r.attivita)).annoMese = none := by
    have hsame : (mkValid (r, i + 2, extractCode r.attivita)).annoMese
        = ((mkValid (r, i + 2, extractCode r.attivita)).dataRif).map
            (fun dt => (dt.year, dt.month)) := rfl
    rw [hsame, hdr]
    rfl
  refine ⟨⟨_, hvmem, rfl, hcod, rfl, hdr, ham⟩, ?_, ?_⟩
  · simp only [conteggioTotaleTipo]
    exact List.getLast?_concat _
  · refine List.one_le_countP_iff.2 ⟨_, hvmem, ?_⟩
    rw [hcod]
    exact beq_self_eq_true c

/-- A row with a valid code and an unparseable completion date. -/
def rowBad : RawRow :=
  ⟨some "P4", some "X", some "A03 seduta", some "Fatto", some "senza data", none⟩

/-- Input consisting of the single row `rowBad`. -/
def rowsBad : List RawRow := [rowBad]

/-- C6 witness: on the concrete row with an unparseable completion date, the
row is retained as valid with null Reference Date and Period and still
counted. -/
theorem C6_witness :
    (∃ v ∈ (loadRows tariffeW escludiW rowsBad).1,
        v.indice = 0 + 2 ∧ v.codice = "A03" ∧ v.raw = rowBad ∧
        v.dataRif = none ∧ v.annoMese = none) ∧
    (conteggioTotaleTipo (loadRows tariffeW escludiW rowsBad).1).getLast?
        = some ("TOTALE", (loadRows tariffeW escludiW rowsBad).1.length) ∧
    1 ≤ (loadRows tariffeW escludiW rowsBad).1.countP (fun w => w.codice == "A03") :=
  @C6_unparseable_date_retained tariffeW escludiW rowsBad 0 rowBad "A03"
    (by decide) (by decide) (by decide) (by decide) (by decide)

/-- C7: `totalRevenue()` equals the sum over the non-TOTAL rows of
`revenueSummary()` of count times rate, and equals the sum over all tariff
codes of (count of valid rows with that code) times the rate, zero-count
codes contributing 0. -/
theorem C7_revenue_identity (tariffe : List (String × ℚ)) (vs : List ValidRow)
    (hnd : (tariffe.map Prod.fst).Nodup)
    (hcl : ∀ v ∈ vs, v.codice ∈ tariffe.map Prod.fst) :
    ricaviTotali tariffe vs
        = (((riepilogoRicavi tariffe vs).dropLast).map
            (fun row => ((row.conteggio : ℚ)) * row.tariffa.getD 0)).sum ∧
    ricaviTotali tariffe vs
        = (tariffe.map (fun ct =>
            ((vs.countP (fun v => v.codice == ct.1) : ℚ)) * ct.2)).sum := by
  refine ⟨?_, rfl⟩
  have hdrop : (riepilogoRicavi tariffe vs).dropLast
      = (codesOf vs).map (fun c =>
          ({ codice := c, tariffa := tariffe.lookup c,
             conteggio := vs.countP (fun v => v.codice == c),
             ricavo := (tariffe.lookup c).map
               (fun q => ((vs.countP (fun v => v.codice == c) : ℚ)) * q) } : RigaRicavo)) := by
    simp only [riepilogoRicavi]
    exact List.dropLast_concat
  have hstepA : ricaviTotali tariffe vs
      = ((tariffe.map Prod.fst).map (fun c =>
          ((vs.countP (fun v => v.codice == c) : ℚ)) * ((tariffe.lookup c).getD 0))).sum := by
    show (tariffe.map (fun ct =>
        ((vs.countP (fun v => v.codice == ct.1) : ℚ)) * ct.2)).sum = _
    rw [List.map_map]
    apply congrArg List.sum
    refine List.map_congr_left (fun ct hct => ?_)
    obtain ⟨a, b⟩ := ct
    have hlk : tariffe.lookup a = some b := lookup_of_mem_nodup hnd hct
    show ((vs.countP (fun v => v.codice == a) : ℚ)) * b = _
    rw [Function.comp_apply, hlk]
    rfl
  have hsplit := sum_map_split (fun c => decide (c ∈ codesOf vs))
      (fun c => ((vs.countP (fun v => v.codice == c) : ℚ)) * ((tariffe.lookup c).getD 0))
      (tariffe.map Prod.fst)
  have hzero : (((tariffe.map Prod.fst).filter
        (fun c => !decide (c ∈ codesOf vs))).map
      (fun c => ((vs.countP (fun v => v.codice == c) : ℚ))
        * ((tariffe.lookup c).getD 0))).sum = 0 := by
    apply List.sum_eq_zero
    intro x hx
    obtain ⟨c, hc, rfl⟩ := List.mem_map.1 hx
    have hcnot : c ∉ codesOf vs := by
      have h2 := (List.mem_filter.1 hc).2
      simpa using h2
    have hcnt : vs.countP (fun v => v.codice == c) = 0 := by
      rw [List.countP_eq_zero]
      intro v hv hbeq
      rw [beq_iff_eq] at hbeq
      exact hcnot (mem_sortedDistinct.2 (List.mem_map.2 ⟨v, hv, hbeq⟩))
    rw [hcnt]
    simp
  have hperm : List.Perm
      ((tariffe.map Prod.fst).filter (fun c => decide (c ∈ codesOf vs)))
      (codesOf vs) := by
    refine (List.perm_ext_iff_of_nodup (hnd.filter _)
      (sortedDistinct_nodup _ _)).2 ?_
    intro a
    simp only [List.mem_filter, decide_eq_true_eq]
    constructor
    · rintro ⟨_, h2⟩
      exact h2
    · intro h
      refine ⟨?_, h⟩
      obtain ⟨v, hv, rfl⟩ := List.mem_map.1 (mem_sortedDistinct.1 h)
      exact hcl v hv
  have hsum2 := (hperm.map (fun c =>
      ((vs.countP (fun v => v.codice == c) : ℚ)) * ((tariffe.lookup c).getD 0))).sum_eq
  calc ricaviTotali tariffe vs
      = ((tariffe.map Prod.fst).map (fun c =>
          ((vs.countP (fun v => v.codice == c) : ℚ))
            * ((tariffe.lookup c).getD 0))).sum := hstepA
    _ = (((tariffe.map Prod.fst).filter (fun c => decide (c ∈ codesOf vs))).map
          (fun c => ((vs.countP (fun v => v.codice == c) : ℚ))
            * ((tariffe.lookup c).getD 0))).sum
        + (((tariffe.map Prod.fst).filter (fun c => !decide (c ∈ codesOf vs))).map
          (fun c => ((vs.countP (fun v => v.codice == c) : ℚ))
            * ((tariffe.lookup c).getD 0))).sum := hsplit.symm
    _ = (((tariffe.map Prod.fst).filter (fun c => decide (c ∈ codesOf vs))).map
          (fun c => ((vs.countP (fun v => v.codice == c) : ℚ))
            * ((tariffe.lookup c).getD 0))).sum := by rw [hzero, add_zero]
    _ = ((codesOf vs).map (fun c =>
          ((vs.countP (fun v => v.codice == c) : ℚ))
            * ((tariffe.lookup c).getD 0))).sum := hsum2
    _ = (((riepilogoRicavi tariffe vs).dropLast).map
          (fun row => ((row.conteggio : ℚ)) * row.tariffa.getD 0)).sum := by
        rw [hdrop, List.map_map]
        rfl

/-- C7 witness: the revenue identity evaluated on a one-row valid set. -/
theorem C7_witness :
    ricaviTotali tariffeW [vC]
        = (((riepilogoRicavi tariffeW [vC]).dropLast).map
            (fun row => ((row.conteggio : ℚ)) * row.tariffa.getD 0)).sum ∧
    ricaviTotali tariffeW [vC]
        = (tariffeW.map (fun ct =>
            (([vC].countP (fun v => v.codice == ct.1) : ℚ)) * ct.2)).sum :=
  C7_revenue_identity tariffeW [vC] (by decide) (by decide)

/-- C8 (amended): the `TOTALE` row of `countsByType()` always counts every
valid row; the `Totale` column of `countsByOperator()` sums over operators to
the number of valid rows carrying a non-null operator, hence to the number of
valid rows whenever every valid row has an operator — a row with a `NaN`
operator cell is dropped by the pivot index and missed by the sum. -/
theorem C8_total_rows (tariffe : List (String × ℚ)) (vs : List ValidRow)
    (hnd : (tariffe.map Prod.fst).Nodup)
    (hcl : ∀ v ∈ vs, v.codice ∈ tariffe.map Prod.fst) :
    (conteggioTotaleTipo vs).getLast? = some ("TOTALE", vs.length) ∧
    ((conteggioPerOperatore tariffe vs).map RigaOperatore.totale).sum
        = vs.countP (fun v => v.raw.operatore.isSome) ∧
    ((∀ v ∈ vs, v.raw.operatore.isSome) →
        ((conteggioPerOperatore tariffe vs).map RigaOperatore.totale).sum
          = vs.length) := by
  have hin : ∀ o : String, ((tariffe.map Prod.fst).map (fun c =>
      vs.countP (fun v => v.raw.operatore == some o && v.codice == c))).sum
      = vs.countP (fun v => v.raw.operatore == some o) := by
    intro o
    have hcov : ∀ a ∈ vs, ∀ k,
        (if a.raw.operatore == some o then some a.codice else none) = some k →
        k ∈ tariffe.map Prod.fst := by
      intro a ha k hk
      by_cases hb : a.raw.operatore == some o
      · rw [if_pos hb] at hk
        cases hk
        exact hcl a ha
      · rw [if_neg hb] at hk
        cases hk
    have hkey := sum_countP_key (tariffe.map Prod.fst)
        (fun v => if v.raw.operatore == some o then some v.codice else none)
        vs hnd hcov
    have hl : ∀ c, vs.countP (fun v =>
          (if v.raw.operatore == some o then some v.codice else none) == some c)
        = vs.countP (fun v => v.raw.operatore == some o && v.codice == c) := by
      intro c
      apply List.countP_congr
      intro v _
      by_cases hb : v.raw.operatore == some o
      · simp [hb]
      · simp [hb]
    have hr : vs.countP (fun v =>
          (if v.raw.operatore == some o then some v.codice else none).isSome)
        = vs.countP (fun v => v.raw.operatore == some o) := by
      apply List.countP_congr
      intro v _
      by_cases hb : v.raw.operatore == some o
      · simp [hb]
      · simp [hb]
    calc ((tariffe.map Prod.fst).map (fun c =>
            vs.countP (fun v => v.raw.operatore == some o && v.codice == c))).sum
        = ((tariffe.map Prod.fst).map (fun k => vs.countP (fun v =>
            (if v.raw.operatore == some o then some v.codice else none)
              == some k))).sum := by
          apply congrArg List.sum
          exact List.map_congr_left (fun c _ => (hl c).symm)
      _ = vs.countP (fun v =>
            (if v.raw.operatore == some o then some v.codice else none).isSome) :=
          hkey
      _ = vs.countP (fun v => v.raw.operatore == some o) := hr
  have hout := sum_countP_key (operatoriOf vs) (fun v => v.raw.operatore) vs
      (sortedDistinct_nodup _ _) (fun a ha k hk =>
        mem_sortedDistinct.2 (List.mem_filterMap.2 ⟨a, ha, hk⟩))
  have hmap : (conteggioPerOperatore tariffe vs).map RigaOperatore.totale
      = (operatoriOf vs).map (fun o => ((tariffe.map Prod.fst).map (fun c =>
          vs.countP (fun v => v.raw.operatore == some o && v.codice == c))).sum) := by
    simp only [conteggioPerOperatore]
    rw [List.map_map]
    rfl
  have hmain : ((conteggioPerOperatore tariffe vs).map RigaOperatore.totale).sum
      = vs.countP (fun v => v.raw.operatore.isSome) := by
    rw [hmap, List.map_congr_left (fun o _ => hin o)]
    exact hout
  refine ⟨?_, hmain, ?_⟩
  · simp only [conteggioTotaleTipo]
    exact List.getLast?_concat _
  · intro hall
    rw [hmain]
    have : vs.countP (fun v => v.raw.operatore.isSome)
        = vs.countP (fun _ => true) :=
      List.countP_congr (fun v hv => by simp [hall v hv])
    rw [this, List.countP_true]

/-- A valid-code row whose operator cell is empty (`NaN`). -/
def rowNoOp : RawRow :=
  ⟨some "P5", none, some "A03 seduta", some "Fatto", some "01/01/2024", none⟩

/-- C8 counterexample: a valid row with a `NaN` operator is produced by
`load` (so the valid set has one row), yet the operator pivot drops it and
the `Totale` column sums to 0, not to the number of valid rows. -/
theorem C8_counterexample :
    (loadRows tariffeW [] [rowNoOp]).1.length = 1 ∧
    (∀ v ∈ (loadRows tariffeW [] [rowNoOp]).1,
        v.codice ∈ tariffeW.map Prod.fst) ∧
    ((conteggioPerOperatore tariffeW (loadRows tariffeW [] [rowNoOp]).1).map
        RigaOperatore.totale).sum = 0 :=
  ⟨rfl, by decide, rfl⟩

/-- C8 witness: the amended totals on a one-row valid set with an operator. -/
theorem C8_witness :
    (conteggioTotaleTipo [vC]).getLast? = some ("TOTALE", [vC].length) ∧
    ((conteggioPerOperatore tariffeW [vC]).map RigaOperatore.totale).sum
        = [vC].countP (fun v => v.raw.operatore.isSome) ∧
    ((∀ v ∈ [vC], v.raw.operatore.isSome) →
        ((conteggioPerOperatore tariffeW [vC]).map RigaOperatore.totale).sum
          = [vC].length) :=
  C8_total_rows tariffeW [vC] (by decide) (by decide)

theorem sortByLe_nodup (le : α → α → Bool) {l : List α} (h : l.Nodup) :
    (sortByLe le l).Nodup :=
  (sortByLe_perm le l).nodup_iff.2 h

theorem mem_sortByLe {le : α → α → Bool} {a : α} {l : List α} :
    a ∈ sortByLe le l ↔ a ∈ l :=
  (sortByLe_perm le l).mem_iff

theorem tot_guard [BEq κ] [LawfulBEq κ] (ks : List κ) (g : α → Bool) (kf : α → κ)
    (l : List α) (hnd : ks.Nodup) (hcov : ∀ a ∈ l, g a = true → kf a ∈ ks) :
    (ks.map (fun k => l.countP (fun a => g a && kf a == k))).sum = l.countP g := by
  have hcov2 : ∀ a ∈ l, ∀ k, (if g a then some (kf a) else none) = some k → k ∈ ks := by
    intro a ha k hk
    by_cases hg : g a
    · rw [if_pos hg] at hk
      cases hk
      exact hcov a ha hg
    · rw [if_neg hg] at hk
      cases hk
  have hkey := sum_countP_key ks (fun a => if g a then some (kf a) else none) l hnd hcov2
  have hl : ∀ k, l.countP (fun a => (if g a then some (kf a) else none) == some k)
      = l.countP (fun a => g a && kf a == k) := by
    intro k
    apply List.countP_congr
    intro a _
    by_cases hg : g a
    · simp [hg]
    · simp [hg]
  have hr : l.countP (fun a => (if g a then some (kf a) else none).isSome)
      = l.countP g := by
    apply List.countP_congr
    intro a _
    by_cases hg : g a
    · simp [hg]
    · simp [hg]
  rw [← hr, ← hkey]
  exact congrArg List.sum (List.map_congr_left (fun k _ => (hl k).symm))

theorem countP_isSome_add_isNone (vs : List ValidRow) :
    vs.countP (fun v => v.annoMese.isSome)
      + vs.countP (fun v => v.annoMese.isNone) = vs.length := by
  induction vs with
  | nil => rfl
  | cons v t ih =>
    simp only [List.countP_cons, List.length_cons]
    cases hv : v.annoMese <;> simp [hv] <;> omega

theorem mesiOf_nodup (vs : List ValidRow) : (mesiOf vs).Nodup :=
  sortedDistinct_nodup _ _

theorem tipiOf_nodup (vs : List ValidRow) : (tipiOf vs).Nodup :=
  sortedDistinct_nodup _ _

theorem periodiOf_nodup (vs : List ValidRow) : (periodiOf vs).Nodup :=
  sortedDistinct_nodup _ _

theorem opMesePairs_nodup (vs : List ValidRow) : (opMesePairs vs).Nodup :=
  sortedDistinct_nodup _ _

/-- C10: valid rows with a null Reference Date are handled inconsistently
across the month-keyed views: `andamento_mensile`, `calcolo_ricavi_per_mese`
and `conteggio_per_operatore_mese` stringify the null period and count those
rows under the literal label `"NaT"`, whereas `conteggio_totale_tipo_mese`
pivots on the raw period and silently omits them — its `TOTALE` row sums
only the rows with a non-null period, which is smaller than the other views'
totals exactly when a null-period row exists. -/
theorem C10_nat_inconsistency (tariffe : List (String × ℚ)) (vs : List ValidRow)
    (hnd : (tariffe.map Prod.fst).Nodup)
    (hcl : ∀ v ∈ vs, v.codice ∈ tariffe.map Prod.fst) :
    (((andamentoMensile vs).filter (fun r => r.mese == "NaT")).map
        RigaAndamento.totale).sum = vs.countP (fun v => v.annoMese.isNone) ∧
    (((calcoloRicaviPerMese tariffe vs).filter (fun r => r.mese == "NaT")).map
        RigaRicaviMese.totConteggio).sum = vs.countP (fun v => v.annoMese.isNone) ∧
    (∀ o : String, (((conteggioPerOperatoreMese tariffe vs).filter
          (fun r => r.operatore == o && r.mese == "NaT")).map
        RigaOperatoreMese.totale).sum
      = vs.countP (fun v => v.raw.operatore == some o && v.annoMese.isNone)) ∧
    (∃ tots, (conteggioTotaleTipoMese vs).getLast? = some ("TOTALE", tots) ∧
        tots.sum = vs.countP (fun v => v.annoMese.isSome)) ∧
    vs.countP (fun v => v.annoMese.isSome) + vs.countP (fun v => v.annoMese.isNone)
      = vs.length := by
  have hcongrNone : ∀ (l : List ValidRow),
      l.countP (fun v => meseStr v.annoMese == "NaT")
        = l.countP (fun v => v.annoMese.isNone) := by
    intro l
    apply List.countP_congr
    intro v _
    rw [beq_iff_eq, Option.isNone_iff_eq_none]
    exact meseStr_eq_nat_iff
  refine ⟨?_, ?_, ?_, ?_, countP_isSome_add_isNone vs⟩
  · have h1 : (((andamentoMensile vs).filter (fun r => r.mese == "NaT")).map
        RigaAndamento.totale).sum
        = (((mesiOf vs).filter (fun m => m == "NaT")).map (fun m =>
            ((tipiOf vs).map (fun t =>
              vs.countP (fun v => meseStr v.annoMese == m && v.tipo == t))).sum)).sum := by
      simp only [andamentoMensile]
      rw [List.filter_map, List.map_map]
      rfl
    rw [h1, sum_map_filter_single _ "NaT" (mesiOf_nodup vs)]
    by_cases hmem : "NaT" ∈ mesiOf vs
    · rw [if_pos hmem]
      have h2 := tot_guard (tipiOf vs) (fun v => meseStr v.annoMese == "NaT")
          (fun v => v.tipo) vs (sortedDistinct_nodup _ _)
          (fun a ha _ => mem_sortedDistinct.2 (List.mem_map.2 ⟨a, ha, rfl⟩))
      exact h2.trans (hcongrNone vs)
    · rw [if_neg hmem]
      symm
      rw [List.countP_eq_zero]
      intro v hv hnone
      apply hmem
      refine mem_sortedDistinct.2 (List.mem_map.2 ⟨v, hv, ?_⟩)
      have hvn : v.annoMese = none := Option.isNone_iff_eq_none.1 hnone
      rw [hvn]
      rfl
  · have h1 : (((calcoloRicaviPerMese tariffe vs).filter
          (fun r => r.mese == "NaT")).map RigaRicaviMese.totConteggio).sum
        = (((mesiOf vs).filter (fun m => m == "NaT")).map (fun m =>
            ((sortByLe strLe (tariffe.map Prod.fst)).map (fun c =>
              vs.countP (fun v =>
                meseStr v.annoMese == m && v.codice == c))).sum)).sum := by
      simp only [calcoloRicaviPerMese]
      rw [List.filter_map, List.map_map]
      rfl
    rw [h1, sum_map_filter_single _ "NaT" (mesiOf_nodup vs)]
    by_cases hmem : "NaT" ∈ mesiOf vs
    · rw [if_pos hmem]
      have h2 := tot_guard (sortByLe strLe (tariffe.map Prod.fst))
          (fun v => meseStr v.annoMese == "NaT") (fun v => v.codice) vs
          (sortByLe_nodup strLe hnd)
          (fun a ha _ => mem_sortByLe.2 (hcl a ha))
      exact h2.trans (hcongrNone vs)
    · rw [if_neg hmem]
      symm
      rw [List.countP_eq_zero]
      intro v hv hnone
      apply hmem
      refine mem_sortedDistinct.2 (List.mem_map.2 ⟨v, hv, ?_⟩)
      have hvn : v.annoMese = none := Option.isNone_iff_eq_none.1 hnone
      rw [hvn]
      rfl
  · intro o
    have h1 : (((conteggioPerOperatoreMese tariffe vs).filter
          (fun r => r.operatore == o && r.mese == "NaT")).map
            RigaOperatoreMese.totale).sum
        = (((opMesePairs vs).filter
            (fun om => om.1 == o && om.2 == "NaT")).map (fun om =>
            ((tariffe.map Prod.fst).map (fun c => vs.countP (fun v =>
              v.raw.operatore == some om.1 && meseStr v.annoMese == om.2
                && v.codice == c))).sum)).sum := by
      simp only [conteggioPerOperatoreMese]
      rw [List.filter_map, List.map_map]
      rfl
    have h2 : ((opMesePairs vs).filter (fun om => om.1 == o && om.2 == "NaT"))
        = ((opMesePairs vs).filter (fun om => om == (o, "NaT"))) := by
      apply List.filter_congr
      intro om _
      rfl
    rw [h1, h2, sum_map_filter_single _ (o, "NaT") (opMesePairs_nodup vs)]
    by_cases hmem : (o, "NaT") ∈ opMesePairs vs
    · rw [if_pos hmem]
      have h3 := tot_guard (tariffe.map Prod.fst)
          (fun v => v.raw.operatore == some o && meseStr v.annoMese == "NaT")
          (fun v => v.codice) vs hnd
          (fun a ha _ => hcl a ha)
      refine h3.trans ?_
      apply List.countP_congr
      intro v _
      simp only [Bool.and_eq_true]
      constructor
      · rintro ⟨hop, hm⟩
        rw [beq_iff_eq] at hm
        exact ⟨hop, Option.isNone_iff_eq_none.2 (meseStr_eq_nat_iff.1 hm)⟩
      · rintro ⟨hop, hm⟩
        refine ⟨hop, ?_⟩
        rw [beq_iff_eq]
        exact meseStr_eq_nat_iff.2 (Option.isNone_iff_eq_none.1 hm)
    · rw [if_neg hmem]
      symm
      rw [List.countP_eq_zero]
      intro v hv hpred
      rw [Bool.and_eq_true] at hpred
      obtain ⟨hop, hm⟩ := hpred
      apply hmem
      refine mem_sortedDistinct.2 (List.mem_filterMap.2 ⟨v, hv, ?_⟩)
      rw [beq_iff_eq] at hop
      rw [hop]
      have hvn : v.annoMese = none := Option.isNone_iff_eq_none.1 hm
      rw [hvn]
      rfl
  · refine ⟨(periodiOf vs).map (fun p => ((tipiOf vs).map (fun t =>
        vs.countP (fun v => v.tipo == t && v.annoMese == some p))).sum), ?_, ?_⟩
    · simp only [conteggioTotaleTipoMese]
      exact List.getLast?_concat _
    · have hp : ∀ p ∈ periodiOf vs, ((tipiOf vs).map (fun t =>
          vs.countP (fun v => v.tipo == t && v.annoMese == some p))).sum
          = vs.countP (fun v => v.annoMese == some p) := by
        intro p _
        have hswap : ∀ t : String,
            vs.countP (fun v => v.tipo == t && v.annoMese == some p)
              = vs.countP (fun v => v.annoMese == some p && v.tipo == t) := by
          intro t
          apply List.countP_congr
          intro v _
          simp [Bool.and_comm]
        calc ((tipiOf vs).map (fun t =>
                vs.countP (fun v => v.tipo == t && v.annoMese == some p))).sum
            = ((tipiOf vs).map (fun t =>
                vs.countP (fun v => v.annoMese == some p && v.tipo == t))).sum :=
              congrArg List.sum (List.map_congr_left (fun t _ => hswap t))
          _ = vs.countP (fun v => v.annoMese == some p) :=
              tot_guard (tipiOf vs) (fun v => v.annoMese == some p)
                (fun v => v.tipo) vs (sortedDistinct_nodup _ _)
                (fun a ha _ => mem_sortedDistinct.2 (List.mem_map.2 ⟨a, ha, rfl⟩))
      rw [List.map_congr_left hp]
      exact sum_countP_key (periodiOf vs) (fun v => v.annoMese) vs
        (sortedDistinct_nodup _ _)
        (fun a ha k hk => mem_sortedDistinct.2 (List.mem_filterMap.2 ⟨a, ha, hk⟩))

/-- A valid row with a parsed period (January 2024). -/
def vOk : ValidRow :=
  ⟨⟨some "P6", some "X", some "A03 a", some "Fatto", some "05/01/2024", none⟩,
    2, "A03", "A", some ⟨5, 1, 2024⟩, some (2024, 1)⟩

/-- A valid row with a null Reference Date and Period. -/
def vNull : ValidRow := ⟨rowBad, 3, "A03", "A", none, none⟩

/-- A valid-row set with one dated and one date-less row. -/
def vsW10 : List ValidRow := [vOk, vNull]

/-- C10 witness: on the two-row set, the trend view counts the null-period
row under `"NaT"` while the type-month `TOTALE` row only counts the dated
row. -/
theorem C10_witness :
    (((andamentoMensile vsW10).filter (fun r => r.mese == "NaT")).map
        RigaAndamento.totale).sum = vsW10.countP (fun v => v.annoMese.isNone) ∧
    vsW10.countP (fun v => v.annoMese.isNone) = 1 ∧
    (∃ tots, (conteggioTotaleTipoMese vsW10).getLast? = some ("TOTALE", tots) ∧
        tots.sum = vsW10.countP (fun v => v.annoMese.isSome)) ∧
    vsW10.countP (fun v => v.annoMese.isSome) = 1 ∧ vsW10.length = 2 :=
  ⟨(C10_nat_inconsistency tariffeW vsW10 (by decide) (by decide)).1, by decide,
   (C10_nat_inconsistency tariffeW vsW10 (by decide) (by decide)).2.2.2.1,
   by decide, by decide⟩
